import Mathlib

/-!
Verification of the IRSendReceive firmware core (reference version 2.0.0).

This file shallowly embeds the IR code capture/replay history engine of the
Arduino C++ source: the `IRcode` record type, the two fixed-capacity
most-recent-first history buffers (`Sent`/`Received`, rotated by pointer
shifting), the hex codec (`Uint64toString`, `HexToLongInt`), the transmit
engine (`irblast`, `rawblast`), the HTTP parameter handling
(`handle_msg`, `handle_json`, `handleReceived`) and the reception step of the
main `loop`.  C/C++ machine integers are modelled as `Nat`/`Int` with explicit
`% 2^32` where the 32-bit `unsigned long` arithmetic of the ESP8266 target
matters.  External collaborators (the IRremoteESP8266 transmitter/receiver,
the HTTP stack, the clock) appear only as the data they exchange with the
core: transmitter invocations and delays are collected as a trace of
`BlastEvent`s, and forwarding calls to the automation server as the list of
records handed to `IRtoFhem`.
-/

namespace IRSendReceive

/-- ASCII lower-casing of one character, as done per character by Arduino
`String::toLowerCase` (`type.toLowerCase()` in `irblast`). -/
def asciiToLower (c : Char) : Char :=
  if 65 ≤ c.toNat ∧ c.toNat ≤ 90 then Char.ofNat (c.toNat + 32) else c

/-- ASCII upper-casing of one character, as done per character by Arduino
`String::toUpperCase` (`h.toUpperCase()` in `HexToLongInt`). -/
def asciiToUpper (c : Char) : Char :=
  if 97 ≤ c.toNat ∧ c.toNat ≤ 122 then Char.ofNat (c.toNat - 32) else c

/-- Arduino `String::toLowerCase` (in-place in C++; functional here). -/
def strToLower (s : String) : String := ⟨s.data.map asciiToLower⟩

/-- Arduino `String::toUpperCase` (in-place in C++; functional here). -/
def strToUpper (s : String) : String := ⟨s.data.map asciiToUpper⟩

/-- `#define MAX_CODES 6` — capacity of each history buffer. -/
def MAX_CODES : Nat := 6

/-- The `IRcode` struct: one sent or received IR event.  All fields are
Arduino `String`s in the source. -/
structure IRcode where
  type     : String
  data     : String
  bits     : String
  rawbuf   : String
  rawlen   : String
  address  : String
  command  : String
  rec_time : String
deriving DecidableEq

/-- A freshly (default-)constructed `IRcode`: C++ `String` members
default-construct to the empty string; `setup()` additionally sets
`rec_time=""` on every slot.  An empty `rec_time` is the unused-slot
sentinel. -/
def emptyIRcode : IRcode :=
  { type := "", data := "", bits := "", rawbuf := "", rawlen := "",
    address := "", command := "", rec_time := "" }

/-- `copyIRcode(from, to)`: field-by-field copy of all eight fields of an
`IRcode` into a (reused) destination slot. -/
def copyIRcode (src dst : IRcode) : IRcode :=
  { dst with
    data     := src.data
    type     := src.type
    bits     := src.bits
    address  := src.address
    command  := src.command
    rawlen   := src.rawlen
    rec_time := src.rec_time
    rawbuf   := src.rawbuf }

/-- The pointer rotation shared by `loop`, `irblast` and `rawblast`:
the oldest slot's storage (`Last…[MAX_CODES-1]`) becomes the new head and is
overwritten by `f`; every other slot shifts down one position.  Viewing the
pointer array `Last…[]` as the list of records it denotes
(most-recent-first), this is: overwrite the evicted last record with `f` and
cons the result in front of the remaining slots. -/
def rotateInsertWith (buf : List IRcode) (f : IRcode → IRcode) : List IRcode :=
  f (buf.getLast?.getD emptyIRcode) :: buf.dropLast

/-- Rotation insert with a full-record overwrite, as done by the reception
path of `loop` (rotation of `LastReceived` followed by
`copyIRcode(&last_code, LastReceived[0])`). -/
def rotateInsert (buf : List IRcode) (r : IRcode) : List IRcode :=
  rotateInsertWith buf (copyIRcode r)

/-- Overwriting every field of a reused slot with `copyIRcode` yields exactly
the inserted record. -/
theorem copyIRcode_eq (src dst : IRcode) : copyIRcode src dst = src := by
  cases src; cases dst; rfl

/-- The digit character written by `Uint64toString`:
`c < 10 ? c + '0' : c + 'A' - 10` (uppercase hexadecimal). -/
def hexDigitChar (d : Nat) : Char :=
  if d < 10 then Char.ofNat (d + 48) else Char.ofNat (d + 55)

/-- The do-while loop of `Uint64toString`, which emits the digits of `input`
in base `b` least-significant first while prepending, i.e. produces the
most-significant-first digit list.  The loop runs at least once (a zero input
yields `"0"`).  The extra `fuel` argument makes the recursion structural; it
is called with `fuel = input`, which always suffices since the quotient
shrinks strictly while the fuel drops by one. -/
def Uint64toStringGo (b : Nat) : Nat → Nat → List Char
  | 0, n => [hexDigitChar (n % b)]
  | fuel + 1, n =>
    if n < b then [hexDigitChar n]
    else Uint64toStringGo b fuel (n / b) ++ [hexDigitChar (n % b)]

/-- `String Uint64toString(uint64_t input, uint8_t base)`: renders `input` in
base `base` with uppercase digits; a base below 2 is replaced by 10
("prevent crash if called with base == 1"). -/
def Uint64toString (input : Nat) (base : Nat) : String :=
  let b := if base < 2 then 10 else base
  ⟨Uint64toStringGo b input input⟩

/-- The per-character conversion inside `HexToLongInt`:
`c = c - '0'; if (c > 9) c = c - 7;` on an `unsigned char` (arithmetic
mod 256). -/
def hexCharVal (ch : Char) : Nat :=
  let c := (ch.toNat + 256 - 48) % 256
  if c > 9 then (c + 256 - 7) % 256 else c

/-- `unsigned long HexToLongInt(String h)`: upper-cases `h`, then walks the
characters from the right, accumulating `tmp += c << s` with `s` growing by 4
per character.  `tmp` is a 32-bit `unsigned long` on the ESP8266 target, so
the accumulation is taken mod `2^32` (the two's-complement wraparound
semantics of the target); the shift itself is modelled as the mathematical
shift. -/
def HexToLongInt (h : String) : Nat :=
  ((strToUpper h).data.foldr
    (fun ch (acc : Nat × Nat) =>
      ((acc.1 + (hexCharVal ch <<< acc.2)) % 2 ^ 32, acc.2 + 4))
    (0, 0)).1

/-- The decoder's protocol enumeration (`decode_type_t` of IRremoteESP8266),
restricted to the values named by the `switch` in `encoding`; `OTHER` stands
for any further enumeration value, which the `default` case maps to
`"UNKNOWN"`. -/
inductive DecodeType where
  | UNKNOWN | NEC | SONY | RC5 | RC6 | DISH | SHARP | JVC | SANYO
  | SANYO_LC7461 | MITSUBISHI | SAMSUNG | LG | WHYNTER | AIWA_RC_T501
  | PANASONIC | DENON | COOLIX | OTHER
deriving DecidableEq

/-- `decode_results` of IRremoteESP8266, as read by the core: the decoded
payload `value` (uint64), the protocol id, the bit count, the raw timing
buffer (uint16 ticks) with its length, the `address`/`command` sub-fields and
the protocol-repeat flag. -/
structure DecodeResults where
  value       : Nat
  decode_type : DecodeType
  bits        : Nat
  address     : Nat
  command     : Nat
  rawbuf      : List Nat
  rawlen      : Nat
  overflow    : Bool
  rept        : Bool       -- the `repeat` member; renamed, `repeat` clashes with Lean syntax
deriving DecidableEq

/-- `String encoding(decode_results *results)`: maps the decoder's protocol
enumeration to a display label; the `default` case (together with `UNKNOWN`)
yields `"UNKNOWN"`. -/
def encoding (results : DecodeResults) : String :=
  match results.decode_type with
  | .UNKNOWN      => "UNKNOWN"
  | .NEC          => "NEC"
  | .SONY         => "SONY"
  | .RC5          => "RC5"
  | .RC6          => "RC6"
  | .DISH         => "DISH"
  | .SHARP        => "SHARP"
  | .JVC          => "JVC"
  | .SANYO        => "SANYO"
  | .SANYO_LC7461 => "SANYO_LC7461"
  | .MITSUBISHI   => "MITSUBISHI"
  | .SAMSUNG      => "SAMSUNG"
  | .LG           => "LG"
  | .WHYNTER      => "WHYNTER"
  | .AIWA_RC_T501 => "AIWA_RC_T501"
  | .PANASONIC    => "PANASONIC"
  | .DENON        => "DENON"
  | .COOLIX       => "COOLIX"
  | .OTHER        => "UNKNOWN"   -- `default:` case of the switch

/-- `RAWTICK` (aka `USECPERTICK/...`): the receiver library's tick-to-
microsecond constant (2 on this library version). -/
def RAWTICK : Nat := 2

/-- Arduino `String(n, HEX)` digit (lowercase hexadecimal). -/
def hexDigitCharLower (d : Nat) : Char :=
  if d < 10 then Char.ofNat (d + 48) else Char.ofNat (d + 87)

/-- Digit emission for Arduino `String(n, HEX)` (lowercase, MSB first);
fueled like `Uint64toStringGo`. -/
def natHexLowerGo : Nat → Nat → List Char
  | 0, n => [hexDigitCharLower (n % 16)]
  | fuel + 1, n =>
    if n < 16 then [hexDigitCharLower n]
    else natHexLowerGo fuel (n / 16) ++ [hexDigitCharLower (n % 16)]

/-- Arduino `String(n, HEX)` for an unsigned value. -/
def natHexLower (n : Nat) : String := ⟨natHexLowerGo n n⟩

/-- The comma-separated raw-sample string built by `codeIRcode`:
`for (i = 1; i < rawlen; i++) r += rawbuf[i]*RAWTICK;` with a `","` after
every entry but the last. -/
def rawbufString (rawbuf : List Nat) (rawlen : Nat) : String :=
  ((List.range rawlen).drop 1).foldl
    (fun s i =>
      s ++ toString (rawbuf.getD i 0 * RAWTICK) ++
        (if i < rawlen - 1 then "," else ""))
    ""

/-- `void codeIRcode(IRcode *codeData, decode_results *results)`: converts a
raw decode into an `IRcode`.  `rec_time` is not set here (the caller stamps
it); the destination in `loop` is a freshly constructed local, so the
untouched field is the empty string.  `String(results->rawlen - 1)` promotes
the `uint16_t` to `int`, so a zero `rawlen` renders as `"-1"`. -/
def codeIRcode (results : DecodeResults) : IRcode :=
  { data     := Uint64toString results.value 16
    type     := encoding results
    bits     := toString results.bits
    rawlen   := toString ((results.rawlen : Int) - 1)
    rawbuf   := rawbufString results.rawbuf results.rawlen
    address  := if results.decode_type ≠ .UNKNOWN
                then "0x" ++ natHexLower results.address else "0x"
    command  := if results.decode_type ≠ .UNKNOWN
                then "0x" ++ natHexLower results.command else "0x"
    rec_time := "" }

/-- One invocation of the external transmitter (`irsend.…`), or one call of
the blocking `delay(ms)` that separates pulses and repeats. -/
inductive SendCall where
  | sendNEC      (data : Nat) (len : Nat)
  | sendSony     (data : Nat) (len : Nat)
  | sendCOOLIX   (data : Nat) (len : Nat)
  | sendWhynter  (data : Nat) (len : Nat)
  | sendPanasonic (address : Int) (data : Nat)
  | sendJVC      (data : Nat) (len : Nat) (rpt : Nat)
  | sendSAMSUNG  (data : Nat) (len : Nat)
  | sendSharpRaw (data : Nat) (len : Nat)
  | sendDISH     (data : Nat) (len : Nat)
  | sendRC5      (data : Nat) (len : Nat)
  | sendRC6      (data : Nat) (len : Nat)
  | sendDenon    (data : Nat) (len : Nat)
  | sendLG       (data : Nat) (len : Nat)
  | sendRCMM     (data : Nat) (len : Nat)
  | enableIROut  (khz : Int)
  | mark         (usec : Int)
  | space        (usec : Int)
deriving DecidableEq

/-- A transmit-burst trace element: a transmitter call or a `delay(ms)`. -/
inductive BlastEvent where
  | call    (c : SendCall)
  | delayMs (ms : Int)
deriving DecidableEq

/-- The `if/else if` protocol dispatch in the inner loop of `irblast`,
applied to the already lower-cased `type`: at most one transmitter call per
iteration, none when no branch matches.  (The `"sharpRaw"` comparison is kept
from the source; it can never match a lower-cased string.) -/
def irblastCalls (type : String) (data : Nat) (len : Nat) (address : Int) :
    List SendCall :=
  if type = "nec" then [.sendNEC data len]
  else if type = "sony" then [.sendSony data len]
  else if type = "coolix" then [.sendCOOLIX data len]
  else if type = "whynter" then [.sendWhynter data len]
  else if type = "panasonic" then [.sendPanasonic address data]
  else if type = "jvc" then [.sendJVC data len 0]
  else if type = "samsung" then [.sendSAMSUNG data len]
  else if type = "sharpRaw" then [.sendSharpRaw data len]
  else if type = "dish" then [.sendDISH data len]
  else if type = "rc5" then [.sendRC5 data len]
  else if type = "rc6" then [.sendRC6 data len]
  else if type = "denon" then [.sendDenon data len]
  else if type = "lg" then [.sendLG data len]
  else if type = "sharp" then [.sendSharpRaw data len]
  else if type = "rcmm" then [.sendRCMM data len]
  else []

/-- The pulse loop shared by `irblast`/`rawblast`:
`for (p = 0; p < pulse; p++) { <calls>; if (p + 1 < pdelay) delay(pdelay); }`.
Note the guard compares the iteration index against the configured delay
magnitude `pdelay`, not against `pulse`. -/
def pulseTrace (calls : List SendCall) (pulse pdelay : Int) : List BlastEvent :=
  (List.range pulse.toNat).flatMap
    (fun p => calls.map .call ++
      (if (p : Int) + 1 < pdelay then [.delayMs pdelay] else []))

/-- The repeat loop shared by `irblast`/`rawblast`:
`for (r = 0; r < repeat; r++) { <pulse loop>; if (r + 1 < rdelay) delay(rdelay); }`. -/
def burstTrace (calls : List SendCall) (rdelay pulse pdelay rept : Int) :
    List BlastEvent :=
  (List.range rept.toNat).flatMap
    (fun r => pulseTrace calls pulse pdelay ++
      (if (r : Int) + 1 < rdelay then [.delayMs rdelay] else []))

/-- The global mutable state of the firmware that the core reads and writes:
the two history buffers (as the record lists denoted by the `LastSent`/
`LastReceived` pointer arrays, most-recent-first), the three counters, the
reception-hold flag and the `FhemMsg` forwarding switch.  `fhemCalls` is the
(observation) trace of records handed to `IRtoFhem`, i.e. the forwarding
calls issued to the automation server. -/
structure SysState where
  lastReceived       : List IRcode
  lastSent           : List IRcode
  countIRreceived    : Nat
  countIRsent        : Nat
  countIRtransferred : Nat
  fhemCalls          : List IRcode
  holdReceive        : Bool
  fhemMsg            : Int
deriving DecidableEq

/-- The state after `setup()`: every slot of both buffers is an empty record
with `rec_time=""` (the unused-slot sentinel), all counters are zero,
`holdReceive=false` and `FhemMsg=1`. -/
def initState : SysState :=
  { lastReceived := List.replicate MAX_CODES emptyIRcode
    lastSent := List.replicate MAX_CODES emptyIRcode
    countIRreceived := 0
    countIRsent := 0
    countIRtransferred := 0
    fhemCalls := []
    holdReceive := false
    fhemMsg := 1 }

/-- Conversion of a C `int`/`long` value to the `unsigned int` parameter
`len` of `irblast` (32-bit on the target). -/
def toUInt32 (i : Int) : Nat := (i % 2 ^ 32).toNat

/-- `void irblast(type, dataStr, len, rdelay, pulse, pdelay, repeat, address,
irsend)`: lower-cases the protocol name, parses the payload hex, raises the
reception hold, runs the repeat×pulse transmit loops (traced as
`BlastEvent`s), increments `CountIRsent`, rotates `LastSent` and overwrites
the new head's `data`/`bits`/`type`/`address`/`command`/`rawlen`/`rec_time`
fields (`rawbuf` is not assigned and keeps the evicted slot's value), then
`resetReceive()` resumes the receiver and clears the hold flag — so the flag
is false again in the returned state. -/
def irblast (st : SysState) (type dataStr : String) (len : Nat)
    (rdelay pulse pdelay rept : Int) (address : Int) (now : String) :
    SysState × List BlastEvent :=
  let ty := strToLower type
  let data := HexToLongInt dataStr
  let events := burstTrace (irblastCalls ty data len address) rdelay pulse pdelay rept
  let lastSent' := rotateInsertWith st.lastSent (fun evicted =>
    { evicted with
      data     := dataStr
      bits     := toString len
      type     := ty
      address  := toString address
      command  := "0"
      rawlen   := "0"
      rec_time := now })
  ({ st with
     countIRsent := st.countIRsent + 1
     lastSent := lastSent'
     holdReceive := false }, events)

/-- The inner body of one `rawblast` pulse: `enableIROut(khz)`, then the
alternating `mark`/`space` calls over the raw array (spaces clamped to be
non-negative), then the closing `space(0)`. -/
def rawblastCalls (raw : List Int) (khz : Int) : List SendCall :=
  .enableIROut khz ::
    ((List.range raw.length).map (fun i =>
      let val := raw.getD i 0
      if i % 2 = 1 then .space (max 0 val) else .mark val))
    ++ [.space 0]

/-- `void rawblast(raw, khz, rdelay, pulse, pdelay, repeat, irsend)`: replays
the raw timing array under the same repeat/pulse/delay loops, increments
`CountIRsent`, rotates `LastSent` and overwrites all eight fields of the new
head (`data=""`, `type="RAW"`, `bits=<sample count>`, `rawbuf=""`), then
resumes reception. -/
def rawblast (st : SysState) (raw : List Int) (khz rdelay pulse pdelay rept : Int)
    (now : String) : SysState × List BlastEvent :=
  let events := burstTrace (rawblastCalls raw khz) rdelay pulse pdelay rept
  let lastSent' := rotateInsertWith st.lastSent (fun evicted =>
    { evicted with
      data     := ""
      type     := "RAW"
      bits     := toString raw.length
      address  := "0"
      command  := "0"
      rawlen   := "0"
      rec_time := now
      rawbuf   := "" })
  ({ st with
     countIRsent := st.countIRsent + 1
     lastSent := lastSent'
     holdReceive := false }, events)

/-- The IR-reception step of `loop()` (lines guarded by
`if (irrecv.decode(&results) && !holdReceive)`): on an accepted decode the
received-events counter is incremented, the decode is converted via
`codeIRcode` and stamped with the current time; a protocol-level repeat is
then logged and discarded, otherwise `LastReceived` is rotated, the record
copied into the new head, and — if `FhemMsg` is enabled and the protocol is
not `"UNKNOWN"` — `CountIRtransferred` is incremented and the record is
forwarded via `IRtoFhem`.  `decoded = none` models a poll with no pending
decode. -/
def loopReceive (st : SysState) (decoded : Option DecodeResults) (now : String) :
    SysState :=
  match decoded with
  | none => st
  | some results =>
    if st.holdReceive then st
    else
      let st1 := { st with countIRreceived := st.countIRreceived + 1 }
      let last_code := { codeIRcode results with rec_time := now }
      if results.rept then st1
      else
        let st2 : SysState := { st1 with
          lastReceived := rotateInsert st1.lastReceived last_code }
        if st2.fhemMsg ≠ 0 then
          if last_code.type ≠ "UNKNOWN" then
            { st2 with
              countIRtransferred := st2.countIRtransferred + 1
              fhemCalls := st2.fhemCalls ++ [last_code] }
          else st2
        else st2

/-- The received-history listing shown by `sendHomePage` (`listReceived()`):
the slots of `LastReceived`, most-recent-first, restricted to used slots
(`rec_time != ""`). -/
def listReceived (st : SysState) : List IRcode :=
  st.lastReceived.filter (fun c => c.rec_time != "")

/-- `void handleReceived()` (the `/received?id=n` query, `getReceivedById`):
`id` is the `toInt()` of the request argument (0 for an unparseable id); the
slot `LastReceived[id-1]` is returned iff `id>0 && id<=MAX_CODES` and the
slot's `rec_time` is non-empty, otherwise a 404 not-found page is sent
(`none`). -/
def handleReceived (st : SysState) (id : Int) : Option IRcode :=
  if id > 0 ∧ id ≤ (MAX_CODES : Int) ∧
      (st.lastReceived.getD (id - 1).toNat emptyIRcode).rec_time ≠ "" then
    some (st.lastReceived.getD (id - 1).toNat emptyIRcode)
  else none

/-- `String getValue(String data, char separator, int index)`: splits `data`
at `separator` and returns the `index`-th piece (`""` when there are not
enough pieces).  Direct translation of the scanning loop over the character
positions, keeping the source's `strIndex[]` bookkeeping; `substring` clamps
like Arduino `String::substring` on the in-range indices produced here. -/
def getValue (data : String) (separator : Char) (index : Nat) : String :=
  let cs := data.data
  let maxIndex : Int := (cs.length : Int) - 1
  let step := fun (acc : Nat × Int × Int) (i : Nat) =>
    let (found, _s0, s1) := acc
    if found ≤ index ∧ (cs.getD i ' ' = separator ∨ (i : Int) = maxIndex) then
      (found + 1, s1 + 1, if (i : Int) = maxIndex then (i : Int) + 1 else (i : Int))
    else acc
  let res := (List.range cs.length).foldl step (0, 0, -1)
  let found := res.1
  let s0 := res.2.1
  let s1 := res.2.2
  if found > index then ⟨(cs.drop s0.toNat).take (s1.toNat - s0.toNat)⟩ else ""

/-- Arduino `String::toInt` (`atol`): parses an optional sign followed by
leading decimal digits; anything unparseable yields 0. -/
def stringToInt (s : String) : Int :=
  let digits := fun cs => (cs : List Char).takeWhile (fun c => c.isDigit)
  let val := fun cs =>
    ((digits cs).foldl (fun a c => a * 10 + ((c.toNat : Int) - 48)) 0)
  match s.data with
  | '-' :: rest => - val rest
  | '+' :: rest => val rest
  | cs => val cs

/-- `void handle_msg()` (the `/msg` request): reads the `type`/`data`/
`length`/`address` fields and the four timing fields, substituting the
defaults 1000/1/100/1 for `rdelay`/`pulse`/`pdelay`/`repeat` only when the
argument is absent (`hasArg`); a `code` argument overrides `data`/`type`/
`length` with the colon-separated triple; then calls `irblast`.  Absent
`length` and `address` read as 0 (`toInt` of an empty argument).  Each
argument is modelled as `none` when absent and `some` of its `toInt`
value when supplied. -/
def handle_msg (st : SysState) (type data : String)
    (length address rdelay pulse pdelay rept : Option Int)
    (code : Option String) (now : String) : SysState × List BlastEvent :=
  let len := length.getD 0
  let address := address.getD 0
  let rdelay := rdelay.getD 1000
  let pulse := pulse.getD 1
  let pdelay := pdelay.getD 100
  let rept := rept.getD 1
  match code with
  | some c =>
    irblast st (getValue c ':' 1) (getValue c ':' 0)
      (toUInt32 (stringToInt (getValue c ':' 2))) rdelay pulse pdelay rept
      address now
  | none =>
    irblast st type data (toUInt32 len) rdelay pulse pdelay rept address now

/-- One element of the JSON array posted to `/json`, after ArduinoJson
parsing: absent integer fields read as 0 and absent strings as `""`. -/
structure JsonCmd where
  type    : String
  data    : String
  raw     : List Int
  khz     : Int
  rdelay  : Int
  pulse   : Int
  pdelay  : Int
  rept    : Int
  length  : Int
  address : Int
deriving DecidableEq

/-- The per-element body of the `/json` loop in `handle_json`: non-positive
`pulse`/`repeat`/`pdelay`/`rdelay` are replaced by the defaults 1/1/100/1000
(and a non-positive `khz` by 38), then the element is dispatched to
`delay(rdelay)`, `rawblast` or `irblast`. -/
def handle_json_cmd (st : SysState) (cmd : JsonCmd) (now : String) :
    SysState × List BlastEvent :=
  let pulse := if cmd.pulse ≤ 0 then 1 else cmd.pulse
  let rept := if cmd.rept ≤ 0 then 1 else cmd.rept
  let pdelay := if cmd.pdelay ≤ 0 then 100 else cmd.pdelay
  let rdelay := if cmd.rdelay ≤ 0 then 1000 else cmd.rdelay
  if cmd.type = "delay" then (st, [.delayMs rdelay])
  else if cmd.type = "raw" then
    let khz := if cmd.khz ≤ 0 then 38 else cmd.khz
    rawblast st cmd.raw khz rdelay pulse pdelay rept now
  else
    irblast st cmd.type cmd.data (toUInt32 cmd.length) rdelay pulse pdelay rept
      cmd.address now

/-- `void handle_json()`: processes the parsed array element by element. -/
def handle_json (st : SysState) (cmds : List JsonCmd) (now : String) :
    SysState × List BlastEvent :=
  cmds.foldl
    (fun (acc : SysState × List BlastEvent) cmd =>
      let (st', evs) := handle_json_cmd acc.1 cmd now
      (st', acc.2 ++ evs))
    (st, [])

/-- One unit of work of the cooperative main loop that touches the core
state: a reception poll, a named-protocol transmit request or a raw
transmit request. -/
inductive LoopEvent where
  | receive (results : Option DecodeResults) (now : String)
  | blast (type data : String) (len : Nat)
      (rdelay pulse pdelay rept address : Int) (now : String)
  | raw (rawArr : List Int) (khz rdelay pulse pdelay rept : Int) (now : String)

/-- The state transition of one `LoopEvent`. -/
def step (st : SysState) : LoopEvent → SysState
  | .receive results now => loopReceive st results now
  | .blast type data len rdelay pulse pdelay rept address now =>
    (irblast st type data len rdelay pulse pdelay rept address now).1
  | .raw rawArr khz rdelay pulse pdelay rept now =>
    (rawblast st rawArr khz rdelay pulse pdelay rept now).1

/-- Running a sequence of loop events. -/
def run (st : SysState) (evs : List LoopEvent) : SysState :=
  evs.foldl step st

/-! ## Helper lemmas -/

theorem rotateInsert_eq (buf : List IRcode) (r : IRcode) :
    rotateInsert buf r = r :: buf.dropLast := by
  simp [rotateInsert, rotateInsertWith, copyIRcode_eq]

/-- Folding rotation-inserts over a non-empty buffer keeps the most recent
`buf.length` records, most-recent-first, padded by the original contents. -/
theorem foldl_rotateInsert (rs : List IRcode) :
    ∀ buf : List IRcode, buf ≠ [] →
      rs.foldl rotateInsert buf = (rs.reverse ++ buf).take buf.length := by
  induction rs with
  | nil => intro buf _; simp
  | cons r rs ih =>
    intro buf hbuf
    have hpos : 0 < buf.length := List.length_pos.mpr hbuf
    have hlen : (r :: buf.dropLast).length = buf.length := by
      rw [List.length_cons, List.length_dropLast]; omega
    rw [List.foldl_cons, rotateInsert_eq, ih _ (by simp), hlen]
    have hr : ∀ xs : List IRcode, r :: xs = [r] ++ xs := fun xs => rfl
    rw [List.reverse_cons, List.append_assoc, hr buf.dropLast,
      ← List.append_assoc, ← List.append_assoc]
    conv_lhs => rw [List.take_append_eq_append_take]
    conv_rhs => rw [List.take_append_eq_append_take]
    congr 1
    rw [List.dropLast_eq_take, List.take_take]
    congr 1
    simp
    omega

/-! ## C1 -/

/-- **C1** For every sequence of insertions into one History Store buffer of
capacity `MAX_CODES = 6` starting from the freshly initialized buffer, after
the insertions the buffer holds exactly the most recent
`min(inserted, MAX_CODES)` records in most-recent-first order, padded with
empty slots; and after exactly `MAX_CODES + 1` insertions the buffer is the
reverse of all insertions but the first, i.e. the 7th insertion evicts
exactly the record inserted first. -/
theorem history_rotation_invariant (rs : List IRcode) :
    rs.foldl rotateInsert (List.replicate MAX_CODES emptyIRcode)
        = rs.reverse.take MAX_CODES
          ++ List.replicate (MAX_CODES - rs.length) emptyIRcode ∧
    (rs.length = MAX_CODES + 1 →
      rs.foldl rotateInsert (List.replicate MAX_CODES emptyIRcode)
        = (rs.drop 1).reverse) := by
  have hmain : rs.foldl rotateInsert (List.replicate MAX_CODES emptyIRcode)
      = rs.reverse.take MAX_CODES
        ++ List.replicate (MAX_CODES - rs.length) emptyIRcode := by
    rw [foldl_rotateInsert rs _ (by simp [MAX_CODES]),
      List.take_append_eq_append_take, List.take_replicate]
    simp [MAX_CODES]
  refine ⟨hmain, fun hlen => ?_⟩
  rw [hmain]
  match rs, hlen with
  | a :: t, hlen =>
    have ht : t.length = MAX_CODES := by simpa [MAX_CODES] using hlen
    have : t.reverse.length = MAX_CODES := by simp [ht]
    simp [List.take_append_eq_append_take, this, MAX_CODES] at *
    omega

/-- Witness for C1 at a concrete sequence of 7 insertions. -/
theorem history_rotation_invariant_witness :
    ([{ emptyIRcode with data := "1" }, { emptyIRcode with data := "2" },
      { emptyIRcode with data := "3" }, { emptyIRcode with data := "4" },
      { emptyIRcode with data := "5" }, { emptyIRcode with data := "6" },
      { emptyIRcode with data := "7" }] : List IRcode).length = MAX_CODES + 1 ∧
    ([{ emptyIRcode with data := "1" }, { emptyIRcode with data := "2" },
      { emptyIRcode with data := "3" }, { emptyIRcode with data := "4" },
      { emptyIRcode with data := "5" }, { emptyIRcode with data := "6" },
      { emptyIRcode with data := "7" }] : List IRcode).foldl rotateInsert
        (List.replicate MAX_CODES emptyIRcode)
      = (([{ emptyIRcode with data := "1" }, { emptyIRcode with data := "2" },
          { emptyIRcode with data := "3" }, { emptyIRcode with data := "4" },
          { emptyIRcode with data := "5" }, { emptyIRcode with data := "6" },
          { emptyIRcode with data := "7" }] : List IRcode).drop 1).reverse :=
  ⟨by decide,
    (history_rotation_invariant _).2 (by decide)⟩

/-! ## C4 -/

/-- **C4** `getReceivedById(n)` (the `/received?id=n` handler) returns the
record in the `n`-th most-recent received slot exactly when `1 ≤ n ≤
MAX_CODES` and that slot's timestamp is non-empty, and a NotFound result
(`none`, mapped to a 404 page) otherwise — including `n = 0` from an
unparseable id and unused slots whose `rec_time` is the empty-string
sentinel; on the freshly initialized store every index yields NotFound. -/
theorem getReceivedById_spec (st : SysState) (id : Int) :
    handleReceived st id =
      (if 1 ≤ id ∧ id ≤ (MAX_CODES : Int) ∧
          (st.lastReceived.getD (id - 1).toNat emptyIRcode).rec_time ≠ "" then
        some (st.lastReceived.getD (id - 1).toNat emptyIRcode)
      else none) ∧
    handleReceived initState id = none := by
  constructor
  · unfold handleReceived
    refine if_congr ?_ rfl rfl
    constructor
    · rintro ⟨h1, h2⟩; exact ⟨by omega, h2⟩
    · rintro ⟨h1, h2⟩; exact ⟨by omega, h2⟩
  · have hslot : (initState.lastReceived.getD (id - 1).toNat emptyIRcode) =
        emptyIRcode := by
      simp only [initState, List.getD]
      rcases h : (List.replicate MAX_CODES emptyIRcode)[(id - 1).toNat]? with _ | c
      · simp
      · have := List.getElem?_mem h
        simp_all [List.eq_of_mem_replicate this]
    unfold handleReceived
    rw [hslot]
    simp [emptyIRcode]

/-! ## C2 -/

/-- **C2** A polled reception event flagged by the external receiver as a
protocol-level repeat is discarded by the reception step of `loop`: the
received history buffer (and hence `listReceived()`) is unchanged, and no
forwarding call to the automation server is issued (the `IRtoFhem` trace and
the transferred counter are unchanged). -/
theorem repeat_suppression (st : SysState) (results : DecodeResults)
    (now : String) (hrep : results.rept = true) :
    (loopReceive st (some results) now).lastReceived = st.lastReceived ∧
    listReceived (loopReceive st (some results) now) = listReceived st ∧
    (loopReceive st (some results) now).fhemCalls = st.fhemCalls ∧
    (loopReceive st (some results) now).countIRtransferred
      = st.countIRtransferred := by
  by_cases h : st.holdReceive <;> simp [loopReceive, h, hrep, listReceived]

/-- A decoded NEC event flagged as a protocol repeat. -/
def sampleNECRepeat : DecodeResults :=
  { value := 551489775, decode_type := .NEC, bits := 32, address := 4,
    command := 191, rawbuf := [], rawlen := 0, overflow := false,
    rept := true }

/-- Witness for C2 at a concrete repeat-flagged NEC event. -/
theorem repeat_suppression_witness :
    (loopReceive initState (some sampleNECRepeat) "12:00:00").lastReceived
        = initState.lastReceived ∧
    listReceived (loopReceive initState (some sampleNECRepeat) "12:00:00")
        = listReceived initState ∧
    (loopReceive initState (some sampleNECRepeat) "12:00:00").fhemCalls
        = initState.fhemCalls ∧
    (loopReceive initState (some sampleNECRepeat) "12:00:00").countIRtransferred
        = initState.countIRtransferred :=
  repeat_suppression initState sampleNECRepeat "12:00:00" rfl

/-! ## C3 -/

/-- **C3** For a recorded (non-repeat, non-held) reception event with
forwarding enabled (`FhemMsg != 0`): if the decoded record's protocol is
`"UNKNOWN"` no forwarding call is issued and `CountIRtransferred` is
unchanged; otherwise exactly one forwarding call is issued (the record is
appended to the `IRtoFhem` trace) and `CountIRtransferred` increments by
exactly one. -/
theorem forwarding_gate (st : SysState) (results : DecodeResults) (now : String)
    (hrep : results.rept = false) (hhold : st.holdReceive = false)
    (hmsg : st.fhemMsg ≠ 0) :
    ((codeIRcode results).type = "UNKNOWN" →
      (loopReceive st (some results) now).fhemCalls = st.fhemCalls ∧
      (loopReceive st (some results) now).countIRtransferred
        = st.countIRtransferred) ∧
    ((codeIRcode results).type ≠ "UNKNOWN" →
      (loopReceive st (some results) now).fhemCalls
        = st.fhemCalls ++ [{ codeIRcode results with rec_time := now }] ∧
      (loopReceive st (some results) now).countIRtransferred
        = st.countIRtransferred + 1) := by
  constructor <;> intro hty <;> simp [loopReceive, hrep, hhold, hmsg, hty]

/-- A decoded NEC event, not flagged as a repeat. -/
def sampleNEC : DecodeResults :=
  { value := 551489775, decode_type := .NEC, bits := 32, address := 4,
    command := 191, rawbuf := [], rawlen := 0, overflow := false,
    rept := false }

/-- Witness for C3 at a concrete non-UNKNOWN event. -/
theorem forwarding_gate_witness :
    (loopReceive initState (some sampleNEC) "12:00:00").fhemCalls
        = initState.fhemCalls
          ++ [{ codeIRcode sampleNEC with rec_time := "12:00:00" }] ∧
    (loopReceive initState (some sampleNEC) "12:00:00").countIRtransferred
        = initState.countIRtransferred + 1 :=
  (forwarding_gate initState sampleNEC "12:00:00" rfl rfl (by decide)).2
    (by decide)

/-! ## C5 -/

/-- Big-endian value of a hex digit-character list under the permissive
per-character conversion of `HexToLongInt`. -/
def valBE (cs : List Char) : Nat :=
  cs.foldl (fun a c => a * 16 + hexCharVal c) 0

theorem valBE_go (cs : List Char) : ∀ a : Nat,
    cs.foldl (fun x c => x * 16 + hexCharVal c) a
      = a * 16 ^ cs.length + valBE cs := by
  induction cs with
  | nil => intro a; simp [valBE]
  | cons c cs ih =>
    intro a
    rw [List.foldl_cons, ih]
    have h0 : valBE (c :: cs) = hexCharVal c * 16 ^ cs.length + valBE cs := by
      rw [valBE, List.foldl_cons, ih]
      simp
    rw [h0, List.length_cons]
    ring

theorem valBE_cons (c : Char) (cs : List Char) :
    valBE (c :: cs) = hexCharVal c * 16 ^ cs.length + valBE cs := by
  rw [valBE, List.foldl_cons, valBE_go]
  simp

theorem valBE_append_singleton (cs : List Char) (c : Char) :
    valBE (cs ++ [c]) = valBE cs * 16 + hexCharVal c := by
  simp [valBE, List.foldl_append]

/-- The right-to-left accumulation loop of `HexToLongInt` computes the
big-endian value mod `2^32` (and four shift bits per character). -/
theorem HexToLongInt_foldr (cs : List Char) :
    cs.foldr (fun ch (acc : Nat × Nat) =>
        ((acc.1 + (hexCharVal ch <<< acc.2)) % 2 ^ 32, acc.2 + 4)) (0, 0)
      = (valBE cs % 2 ^ 32, 4 * cs.length) := by
  induction cs with
  | nil => simp [valBE]
  | cons c cs ih =>
    rw [List.foldr_cons, ih]
    have hpow : (2 : Nat) ^ (4 * cs.length) = 16 ^ cs.length := by
      rw [pow_mul]
      norm_num
    simp only [Nat.shiftLeft_eq, Prod.mk.injEq]
    constructor
    · rw [Nat.mod_add_mod, hpow, valBE_cons, Nat.add_comm]
    · rw [List.length_cons]; ring

theorem HexToLongInt_eq_valBE (cs : List Char) :
    HexToLongInt ⟨cs⟩ = valBE (cs.map asciiToUpper) % 2 ^ 32 := by
  unfold HexToLongInt strToUpper
  rw [show (String.mk cs).data = cs from rfl]
  rw [show (String.mk (cs.map asciiToUpper)).data = cs.map asciiToUpper from rfl]
  rw [HexToLongInt_foldr]

theorem hexCharVal_hexDigitChar (d : Nat) (h : d < 16) :
    hexCharVal (hexDigitChar d) = d := by
  interval_cases d <;> decide

theorem asciiToUpper_hexDigitChar (d : Nat) (h : d < 16) :
    asciiToUpper (hexDigitChar d) = hexDigitChar d := by
  interval_cases d <;> decide

/-- The digit list produced by `Uint64toStringGo` in base 16 is unchanged by
upper-casing and parses back (big-endian) to the rendered value. -/
theorem Uint64toStringGo_digits : ∀ fuel n : Nat, n ≤ fuel →
    (Uint64toStringGo 16 fuel n).map asciiToUpper = Uint64toStringGo 16 fuel n
    ∧ valBE (Uint64toStringGo 16 fuel n) = n := by
  intro fuel
  induction fuel with
  | zero =>
    intro n h
    have hn : n = 0 := Nat.le_zero.mp h
    subst hn
    exact ⟨by decide, by decide⟩
  | succ fuel ih =>
    intro n h
    by_cases hlt : n < 16
    · simp only [Uint64toStringGo, if_pos hlt]
      refine ⟨?_, ?_⟩
      · simp [asciiToUpper_hexDigitChar n hlt]
      · simp [valBE, hexCharVal_hexDigitChar n hlt]
    · have h16 : 16 ≤ n := le_of_not_lt hlt
      have hrec : n / 16 ≤ fuel := by
        have : n / 16 < n := Nat.div_lt_self (by omega) (by omega)
        omega
      obtain ⟨ihm, ihv⟩ := ih (n / 16) hrec
      simp only [Uint64toStringGo, if_neg hlt]
      refine ⟨?_, ?_⟩
      · rw [List.map_append, ihm]
        simp [asciiToUpper_hexDigitChar (n % 16) (Nat.mod_lt _ (by omega))]
      · rw [valBE_append_singleton, ihv,
          hexCharVal_hexDigitChar (n % 16) (Nat.mod_lt _ (by omega))]
        omega

/-- **C5 counterexample** The round trip fails on the 64-bit value `2^32`:
`HexToLongInt` returns a 32-bit `unsigned long` on the ESP8266 target, so
`HexToLongInt(Uint64toString(2^32, 16))` is `0`, not `2^32`.  (The data model
allows payloads up to 64 bits, so `2^32` is in the claimed range.) -/
theorem hex_roundtrip_counterexample :
    HexToLongInt (Uint64toString 4294967296 16) = 0 ∧
    HexToLongInt (Uint64toString 4294967296 16) ≠ 4294967296 := by
  constructor <;> decide

/-- **C5 (amended)** For every unsigned integer `V` representable in the
32-bit `unsigned long` of the target (not the full 64-bit payload width),
parsing the uppercase-hexadecimal rendering of `V` yields `V` again:
`HexToLongInt (Uint64toString V 16) = V` for all `V < 2^32`. -/
theorem hex_roundtrip (V : Nat) (h : V < 2 ^ 32) :
    HexToLongInt (Uint64toString V 16) = V := by
  obtain ⟨hmap, hval⟩ := Uint64toStringGo_digits V V (le_refl V)
  have hbase : Uint64toString V 16 = ⟨Uint64toStringGo 16 V V⟩ := by
    unfold Uint64toString
    norm_num
  rw [hbase, HexToLongInt_eq_valBE, hmap, hval, Nat.mod_eq_of_lt h]

/-- Witness for C5 (amended) at `V = 0x20DF10EF`. -/
theorem hex_roundtrip_witness :
    551489775 < 2 ^ 32 ∧
    HexToLongInt (Uint64toString 551489775 16) = 551489775 :=
  ⟨by norm_num, hex_roundtrip 551489775 (by norm_num)⟩

/-! ## C6 -/

/-- Is a burst-trace element a blocking `delay(ms)` call? -/
def isDelay : BlastEvent → Bool
  | .delayMs _ => true
  | .call _ => false

/-- The delay placement the claim describes — a pulse delay after every pulse
except the final pulse of each repeat block, and a repeat delay after every
repeat except the final one.  Modelled from the spec's words (claim C6) for
comparison with the source-derived `burstTrace`. -/
def burstTraceExceptFinal (calls : List SendCall) (rdelay pulse pdelay rept : Int) :
    List BlastEvent :=
  (List.range rept.toNat).flatMap (fun r =>
    ((List.range pulse.toNat).flatMap (fun p =>
      calls.map .call ++
        (if (p : Int) + 1 < pulse then [.delayMs pdelay] else []))) ++
    (if (r : Int) + 1 < rept then [.delayMs rdelay] else []))

/-- **C6 counterexample** With `repeat = 1`, `pulse = 2` and the default
delays `pdelay = 100`, `rdelay = 1000`, the source inserts the pulse delay
after the final pulse as well, and the repeat delay after the final (only)
repeat: the guards `p+1 < pdelay` / `r+1 < rdelay` compare the iteration
position against the configured delay magnitude, not against the
pulse/repeat counts, so the trace differs from the except-after-final
placement stated by the claim. -/
theorem delay_placement_counterexample :
    burstTrace [.sendNEC 551489775 32] 1000 2 100 1
      ≠ burstTraceExceptFinal [.sendNEC 551489775 32] 1000 2 100 1 ∧
    burstTrace [.sendNEC 551489775 32] 1000 2 100 1
      = [.call (.sendNEC 551489775 32), .delayMs 100,
         .call (.sendNEC 551489775 32), .delayMs 100, .delayMs 1000] := by
  constructor <;> decide

theorem countP_isDelay_map_call (calls : List SendCall) :
    (calls.map BlastEvent.call).countP isDelay = 0 := by
  induction calls with
  | nil => rfl
  | cons c cs ih => simp [List.countP_cons, isDelay, ih]

theorem countP_pulseTrace (calls : List SendCall) (pdelay : Int) :
    ∀ P : Nat,
      ((List.range P).flatMap (fun p =>
          calls.map BlastEvent.call ++
            (if (p : Int) + 1 < pdelay then [BlastEvent.delayMs pdelay]
             else []))).countP isDelay
        = min P (pdelay - 1).toNat := by
  intro P
  induction P with
  | zero => simp
  | succ P ih =>
    rw [List.range_succ, List.flatMap_append, List.countP_append, ih]
    have hcall := countP_isDelay_map_call calls
    by_cases hp : (P : Int) + 1 < pdelay
    · simp [hp, List.countP_append, hcall, List.countP_cons, isDelay]
      omega
    · simp [hp, List.countP_append, hcall]
      omega

theorem countP_burstTrace_aux (calls : List SendCall) (pulse pdelay rdelay : Int) :
    ∀ R : Nat,
      ((List.range R).flatMap (fun r =>
          pulseTrace calls pulse pdelay ++
            (if (r : Int) + 1 < rdelay then [BlastEvent.delayMs rdelay]
             else []))).countP isDelay
        = R * min pulse.toNat (pdelay - 1).toNat
          + min R (rdelay - 1).toNat := by
  intro R
  induction R with
  | zero => simp
  | succ R ih =>
    rw [List.range_succ, List.flatMap_append, List.countP_append, ih]
    have hpt : (pulseTrace calls pulse pdelay).countP isDelay
        = min pulse.toNat (pdelay - 1).toNat := by
      unfold pulseTrace
      exact countP_pulseTrace calls pdelay pulse.toNat
    by_cases hr : (R : Int) + 1 < rdelay
    · simp [hr, List.countP_append, hpt, List.countP_cons, isDelay]
      ring_nf
      omega
    · simp [hr, List.countP_append, hpt]
      ring_nf
      omega

/-- **C6 (amended)** In a transmit burst, the inter-pulse delay is inserted
after the `p`-th pulse (0-based) of each repeat block exactly when
`p + 1 < pulseDelayMs`, and the inter-repeat delay after the `r`-th repeat
exactly when `r + 1 < repeatDelayMs`: whether a delay occurs depends on the
iteration position compared against the configured delay *magnitude*, not
against the pulse/repeat counts.  Consequently the number of `delay` calls
in the burst is `repeat · min(pulse, pdelay−1) + min(repeat, rdelay−1)`
(counts taken non-negative). -/
theorem delay_placement (calls : List SendCall) (rdelay pulse pdelay rept : Int) :
    (burstTrace calls rdelay pulse pdelay rept).countP isDelay
      = rept.toNat * min pulse.toNat (pdelay - 1).toNat
        + min rept.toNat (rdelay - 1).toNat := by
  unfold burstTrace
  exact countP_burstTrace_aux calls pulse pdelay rdelay rept.toNat

/-! ## C7 -/

/-- **C7 counterexample** On the `/msg` path a *supplied* non-positive value
is not replaced by its default: with `pulse=0` supplied (all other timing
fields at their defaults), the transmit executes zero pulse iterations — no
transmitter call at all, only the repeat delay — unlike the identical
request with the default `pulse=1`.  So the claim fails on the `/msg`
path. -/
theorem request_defaults_counterexample :
    (handle_msg initState "nec" "20DF10EF" (some 32) (some 0) (some 1000)
        (some 0) (some 100) (some 1) none "t").2 = [.delayMs 1000] ∧
    (handle_msg initState "nec" "20DF10EF" (some 32) (some 0) (some 1000)
        (some 1) (some 100) (some 1) none "t").2
      = [.call (.sendNEC 551489775 32), .delayMs 100, .delayMs 1000] ∧
    ([BlastEvent.delayMs 1000] : List BlastEvent)
      ≠ [.call (.sendNEC 551489775 32), .delayMs 100, .delayMs 1000] := by
  refine ⟨?_, ?_, ?_⟩ <;> decide

/-- **C7 (amended)** On the `/json` path every non-positive supplied value
for `pulse`/`repeat`/`pdelay`/`rdelay` is replaced by its default
(1/1/100/1000) before the transmit executes — explicitly substituting the
defaults yields an identical outcome, and the effective values are always
positive (no error is raised).  On the `/msg` path the defaults are applied
only when an argument is absent: a supplied value, non-positive or not, is
passed to the transmit engine unchanged. -/
theorem request_defaults (st : SysState) (cmd : JsonCmd) (type data : String)
    (length address rdelay pulse pdelay rept : Option Int) (now : String) :
    handle_json_cmd st cmd now
      = handle_json_cmd st
          { cmd with
            pulse := if cmd.pulse ≤ 0 then 1 else cmd.pulse
            rept := if cmd.rept ≤ 0 then 1 else cmd.rept
            pdelay := if cmd.pdelay ≤ 0 then 100 else cmd.pdelay
            rdelay := if cmd.rdelay ≤ 0 then 1000 else cmd.rdelay } now ∧
    (0 < (if cmd.pulse ≤ 0 then (1 : Int) else cmd.pulse) ∧
     0 < (if cmd.rept ≤ 0 then (1 : Int) else cmd.rept) ∧
     0 < (if cmd.pdelay ≤ 0 then (100 : Int) else cmd.pdelay) ∧
     0 < (if cmd.rdelay ≤ 0 then (1000 : Int) else cmd.rdelay)) ∧
    handle_msg st type data length address rdelay pulse pdelay rept none now
      = irblast st type data (toUInt32 (length.getD 0)) (rdelay.getD 1000)
          (pulse.getD 1) (pdelay.getD 100) (rept.getD 1) (address.getD 0)
          now := by
  refine ⟨?_, ?_, rfl⟩
  · by_cases h1 : cmd.pulse ≤ 0 <;> by_cases h2 : cmd.rept ≤ 0 <;>
      by_cases h3 : cmd.pdelay ≤ 0 <;> by_cases h4 : cmd.rdelay ≤ 0 <;>
      simp [handle_json_cmd, h1, h2, h3, h4]
  · refine ⟨?_, ?_, ?_, ?_⟩ <;> split_ifs <;> omega

/-! ## C8 -/

/-- **C8 counterexample** For the unmatched request name `"FOO"` the sent
record inserted at the head carries the lower-cased name `"foo"`, not the
requested name `"FOO"` (while no transmitter branch matches). -/
theorem unknown_protocol_counterexample :
    ((irblast initState "FOO" "20DF10EF" 32 1000 1 100 1 0 "t").1.lastSent.head?.getD
        emptyIRcode).type = "foo" ∧
    ("foo" : String) ≠ "FOO" ∧
    irblastCalls (strToLower "FOO") (HexToLongInt "20DF10EF") 32 0 = [] := by
  refine ⟨?_, ?_, ?_⟩ <;> decide

theorem mem_ite_delay {e : BlastEvent} {c : Prop} [Decidable c] {ms : Int}
    (he : e ∈ (if c then [BlastEvent.delayMs ms] else [])) :
    e = BlastEvent.delayMs ms := by
  by_cases h : c
  · simp [h] at he; exact he
  · simp [h] at he

/-- A burst with no matching transmitter branch consists of delays only. -/
theorem burstTrace_nil_all_delay (rdelay pulse pdelay rept : Int) :
    (burstTrace [] rdelay pulse pdelay rept).all isDelay = true := by
  rw [List.all_eq_true]
  intro e he
  simp only [burstTrace, pulseTrace, List.mem_flatMap, List.mem_append,
    List.map_nil, List.nil_append] at he
  obtain ⟨r, _, hcase⟩ := he
  rcases hcase with ⟨p, _, hp⟩ | hr
  · obtain rfl := mem_ite_delay hp; rfl
  · obtain rfl := mem_ite_delay hr; rfl

/-- **C8 (amended)** A named-protocol transmit request whose lower-cased name
matches none of the supported transmit names invokes no operation on the
external transmitter (the burst trace consists of delays only — a silent
no-op, no error), yet a sent-history record carrying the *lower-cased*
requested name, the requested payload string, bit length and address is
still inserted at the head of the sent History Store, and `CountIRsent`
still increments by one. -/
theorem unknown_protocol_silent_record (st : SysState) (type dataStr : String)
    (len : Nat) (rdelay pulse pdelay rept address : Int) (now : String)
    (hmiss : irblastCalls (strToLower type) (HexToLongInt dataStr) len address
      = []) :
    (irblast st type dataStr len rdelay pulse pdelay rept address now).2.all
        isDelay = true ∧
    ((irblast st type dataStr len rdelay pulse pdelay rept address
        now).1.lastSent.head?.getD emptyIRcode).type = strToLower type ∧
    ((irblast st type dataStr len rdelay pulse pdelay rept address
        now).1.lastSent.head?.getD emptyIRcode).data = dataStr ∧
    ((irblast st type dataStr len rdelay pulse pdelay rept address
        now).1.lastSent.head?.getD emptyIRcode).bits = toString len ∧
    ((irblast st type dataStr len rdelay pulse pdelay rept address
        now).1.lastSent.head?.getD emptyIRcode).address = toString address ∧
    (irblast st type dataStr len rdelay pulse pdelay rept address
        now).1.countIRsent = st.countIRsent + 1 := by
  unfold irblast
  simp only [hmiss]
  exact ⟨burstTrace_nil_all_delay _ _ _ _, by simp [rotateInsertWith],
    by simp [rotateInsertWith], by simp [rotateInsertWith],
    by simp [rotateInsertWith], by simp⟩

/-- Witness for C8 (amended) at the unmatched request name `"volumeup"`. -/
theorem unknown_protocol_silent_record_witness :
    (irblast initState "volumeup" "ABCD" 16 1000 1 100 1 0 "t").2.all
        isDelay = true ∧
    ((irblast initState "volumeup" "ABCD" 16 1000 1 100 1 0
        "t").1.lastSent.head?.getD emptyIRcode).type = strToLower "volumeup" ∧
    ((irblast initState "volumeup" "ABCD" 16 1000 1 100 1 0
        "t").1.lastSent.head?.getD emptyIRcode).data = "ABCD" ∧
    ((irblast initState "volumeup" "ABCD" 16 1000 1 100 1 0
        "t").1.lastSent.head?.getD emptyIRcode).bits = toString (16 : Nat) ∧
    ((irblast initState "volumeup" "ABCD" 16 1000 1 100 1 0
        "t").1.lastSent.head?.getD emptyIRcode).address = toString (0 : Int) ∧
    (irblast initState "volumeup" "ABCD" 16 1000 1 100 1 0
        "t").1.countIRsent = initState.countIRsent + 1 :=
  unknown_protocol_silent_record initState "volumeup" "ABCD" 16 1000 1 100 1 0
    "t" (by decide)

/-! ## Run invariants (C9, C10) -/

theorem loopReceive_lastSent (st : SysState) (d : Option DecodeResults)
    (now : String) : (loopReceive st d now).lastSent = st.lastSent := by
  rcases d with _ | results
  · rfl
  · by_cases h : st.holdReceive = true
    · simp [loopReceive, h]
    · by_cases hr : results.rept = true
      · simp [loopReceive, h, hr]
      · simp only [loopReceive, h, hr]
        split_ifs <;> rfl

theorem loopReceive_countIRreceived (st : SysState) (results : DecodeResults)
    (now : String) :
    (loopReceive st (some results) now).countIRreceived
      = st.countIRreceived + (if st.holdReceive then 0 else 1) := by
  by_cases h : st.holdReceive = true
  · simp [loopReceive, h]
  · by_cases hr : results.rept = true
    · simp [loopReceive, h, hr]
    · simp only [loopReceive, h, hr]
      split_ifs <;> simp [h]

/-- 1 when a pending decode passes the poll guard
`irrecv.decode(&results) && !holdReceive`. -/
def receiveAccepted (st : SysState) : Option DecodeResults → Nat
  | some _ => if st.holdReceive then 0 else 1
  | none => 0

/-- 1 when the poll inserts a record into the received history buffer
(accepted and not a protocol repeat). -/
def receiveInserted (st : SysState) : Option DecodeResults → Nat
  | some results =>
    if st.holdReceive then 0 else if results.rept then 0 else 1
  | none => 0

/-- Number of reception events accepted along a run. -/
def acceptedCount : SysState → List LoopEvent → Nat
  | _, [] => 0
  | st, ev :: evs =>
    (match ev with
     | .receive r? _ => receiveAccepted st r?
     | _ => 0) + acceptedCount (step st ev) evs

/-- Number of records ever inserted into the received history along a run. -/
def insertedCount : SysState → List LoopEvent → Nat
  | _, [] => 0
  | st, ev :: evs =>
    (match ev with
     | .receive r? _ => receiveInserted st r?
     | _ => 0) + insertedCount (step st ev) evs

theorem step_countIRreceived (st : SysState) (ev : LoopEvent) :
    (step st ev).countIRreceived
      = st.countIRreceived +
        (match ev with
         | .receive r? _ => receiveAccepted st r?
         | _ => 0) := by
  cases ev with
  | receive r? now =>
    rcases r? with _ | results
    · simp [step, loopReceive, receiveAccepted]
    · rw [show step st (.receive (some results) now)
          = loopReceive st (some results) now from rfl,
        loopReceive_countIRreceived]
      rfl
  | blast type data len rdelay pulse pdelay rept address now =>
    simp [step, irblast]
  | raw rawArr khz rdelay pulse pdelay rept now =>
    simp [step, rawblast]

theorem run_countIRreceived : ∀ (evs : List LoopEvent) (st : SysState),
    (run st evs).countIRreceived = st.countIRreceived + acceptedCount st evs := by
  intro evs
  induction evs with
  | nil => intro st; simp [run, acceptedCount]
  | cons ev evs ih =>
    intro st
    have hrun : run st (ev :: evs) = run (step st ev) evs := rfl
    rw [hrun, ih, step_countIRreceived]
    simp only [acceptedCount]
    omega

theorem insertedCount_le_acceptedCount :
    ∀ (evs : List LoopEvent) (st : SysState),
      insertedCount st evs ≤ acceptedCount st evs := by
  intro evs
  induction evs with
  | nil => intro st; simp [insertedCount, acceptedCount]
  | cons ev evs ih =>
    intro st
    simp only [insertedCount, acceptedCount]
    refine Nat.add_le_add ?_ (ih _)
    cases ev with
    | receive r? now =>
      rcases r? with _ | results
      · simp [receiveInserted, receiveAccepted]
      · simp only [receiveInserted, receiveAccepted]
        split_ifs <;> omega
    | blast type data len rdelay pulse pdelay rept address now => simp
    | raw rawArr khz rdelay pulse pdelay rept now => simp

theorem step_sent_rawbuf (st : SysState) (ev : LoopEvent)
    (h : st.lastSent.all (fun c => c.rawbuf == "") = true) :
    (step st ev).lastSent.all (fun c => c.rawbuf == "") = true := by
  have hev : (st.lastSent.getLast?.getD emptyIRcode).rawbuf = "" := by
    rcases hg : st.lastSent.getLast? with _ | c
    · simp [emptyIRcode]
    · have hc : c ∈ st.lastSent := List.mem_of_getLast?_eq_some hg
      have := (List.all_eq_true.mp h) c hc
      simpa using this
  have hdrop : st.lastSent.dropLast.all (fun c => c.rawbuf == "") = true := by
    rw [List.all_eq_true] at h ⊢
    intro c hc
    exact h c ((List.dropLast_sublist st.lastSent).subset hc)
  cases ev with
  | receive r? now =>
    rw [show step st (.receive r? now) = loopReceive st r? now from rfl,
      loopReceive_lastSent]
    exact h
  | blast type data len rdelay pulse pdelay rept address now =>
    simp [step, irblast, rotateInsertWith, hev, hdrop]
  | raw rawArr khz rdelay pulse pdelay rept now =>
    simp [step, rawblast, rotateInsertWith, hdrop]

/-- Every sent-history slot of a state reachable from `setup()` has an empty
`rawbuf`: the reception path never touches `LastSent`, `rawblast` writes
`rawbuf := ""`, and `irblast` reuses the evicted slot's (empty) value. -/
theorem run_sent_rawbuf : ∀ (evs : List LoopEvent) (st : SysState),
    st.lastSent.all (fun c => c.rawbuf == "") = true →
    (run st evs).lastSent.all (fun c => c.rawbuf == "") = true := by
  intro evs
  induction evs with
  | nil => intro st h; exact h
  | cons ev evs ih =>
    intro st h
    exact ih _ (step_sent_rawbuf st ev h)

/-! ## C9 -/

/-- A sent buffer whose oldest (about-to-be-reused) slot still holds raw
samples — the slot shape the claim's "even when the reused slot previously
held a raw record" quantifies over. -/
def staleSentState : SysState :=
  { initState with
    lastSent := List.replicate (MAX_CODES - 1) emptyIRcode
      ++ [{ emptyIRcode with rawbuf := "9000,4500,560,560", rec_time := "old" }] }

/-- **C9 counterexample** `irblast` never assigns `rawbuf`, so when the
reused slot holds raw samples they survive into the new head of the sent
history: the head's `rawbuf` derives from the evicted record, not from the
newly inserted record or a default. -/
theorem irblast_stale_rawbuf_counterexample :
    ((irblast staleSentState "nec" "20DF10EF" 32 1000 1 100 1 0
        "t").1.lastSent.head?.getD emptyIRcode).rawbuf = "9000,4500,560,560" ∧
    ("9000,4500,560,560" : String) ≠ "" := by
  constructor <;> decide

/-- **C9 (amended)** On the receive insertion path every field of the new
head derives from the newly inserted record (`copyIRcode` overwrites all
eight fields), and `rawblast` likewise writes all eight fields of the sent
head (with `rawbuf := ""`).  `irblast` overwrites only seven fields from the
request and defaults, leaving `rawbuf` as in the evicted slot — but every
sent slot reachable from `setup()` has an empty `rawbuf`, so in every
reachable state the sent record synthesized after a named-protocol transmit
still contains no raw samples. -/
theorem insert_frame_effect (evs : List LoopEvent) (buf : List IRcode)
    (r : IRcode) (type dataStr : String) (len : Nat)
    (rdelay pulse pdelay rept address khz : Int) (raw : List Int)
    (now : String) :
    rotateInsert buf r = r :: buf.dropLast ∧
    (rawblast (run initState evs) raw khz rdelay pulse pdelay rept
        now).1.lastSent.head?.getD emptyIRcode
      = { type := "RAW", data := "", bits := toString raw.length,
          rawbuf := "", rawlen := "0", address := "0", command := "0",
          rec_time := now } ∧
    (irblast (run initState evs) type dataStr len rdelay pulse pdelay rept
        address now).1.lastSent.head?.getD emptyIRcode
      = { type := strToLower type, data := dataStr, bits := toString len,
          rawbuf := "", rawlen := "0", address := toString address,
          command := "0", rec_time := now } := by
  have hinit : initState.lastSent.all (fun c => c.rawbuf == "") = true := by
    decide
  have hall := run_sent_rawbuf evs initState hinit
  have hraw : ((run initState evs).lastSent.getLast?.getD emptyIRcode).rawbuf
      = "" := by
    rcases hg : (run initState evs).lastSent.getLast? with _ | c
    · simp [emptyIRcode]
    · have hc := List.mem_of_getLast?_eq_some hg
      have := (List.all_eq_true.mp hall) c hc
      simpa using this
  refine ⟨rotateInsert_eq buf r, rfl, ?_⟩
  have hhead : (irblast (run initState evs) type dataStr len rdelay pulse
        pdelay rept address now).1.lastSent.head?.getD emptyIRcode
      = { type := strToLower type, data := dataStr, bits := toString len,
          rawbuf := ((run initState evs).lastSent.getLast?.getD
            emptyIRcode).rawbuf,
          rawlen := "0", address := toString address, command := "0",
          rec_time := now } := rfl
  rw [hhead, hraw]

/-! ## C10 -/

/-- **C10** Along any run from the initial state the received-events counter
equals the number of reception events accepted by the poll (each accepted
event — protocol repeats included, counted before the repeat filter —
increments it by exactly one: see the third conjunct, which holds for
arbitrary events including repeat-flagged ones), hence it is at least the
number of records ever inserted into the received History Store; and each
transmit operation increments the sent counter by exactly one, regardless of
its repeat and pulse iteration counts. -/
theorem counters_invariant (evs : List LoopEvent) (st : SysState)
    (results : DecodeResults) (type dataStr nowS : String) (len : Nat)
    (rdelay pulse pdelay rept address khz : Int) (raw : List Int) :
    (run initState evs).countIRreceived = acceptedCount initState evs ∧
    insertedCount initState evs ≤ (run initState evs).countIRreceived ∧
    (loopReceive st (some results) nowS).countIRreceived
      = st.countIRreceived + (if st.holdReceive then 0 else 1) ∧
    (irblast st type dataStr len rdelay pulse pdelay rept address
        nowS).1.countIRsent = st.countIRsent + 1 ∧
    (rawblast st raw khz rdelay pulse pdelay rept nowS).1.countIRsent
      = st.countIRsent + 1 := by
  have h1 : (run initState evs).countIRreceived = acceptedCount initState evs := by
    rw [run_countIRreceived evs initState]
    simp [initState]
  refine ⟨h1, ?_, loopReceive_countIRreceived st results nowS,
    by simp [irblast], by simp [rawblast]⟩
  rw [h1]
  exact insertedCount_le_acceptedCount evs initState

end IRSendReceive
